import Mathlib

/-!
Shallow embedding of the job-queue / HITL / notification core of the
web-form-scraper backend:

* `src/backend/app/queue/consumer.py` — class `JobQueue` (FIFO admission
  queue `job_queue`, in-flight table `active_jobs`, human-input buffer
  `human_input_queue`, the consumer loop, `_process_next_job`, `_run_job`,
  `cancel_job`, `submit_human_input`, `_cleanup_completed_jobs`,
  `get_job_status`).
* `src/backend/app/api/websockets.py` — class `WebSocketManager`
  (`active_connections`, `send_json_message`, `disconnect`).
* `src/backend/app/agents/tools.py` — `HumanInputTool._arun` /
  `send_progress_update` (the HITL notification).

Python dicts are embedded as association lists with unique keys
(overwrite-in-place on assignment, first-match lookup); `datetime.utcnow()`
is embedded as a natural-number clock `now` in seconds, advanced by explicit
`tick` steps; the asynchronous interleaving of the consumer loop and the
per-job tasks is embedded as a labelled small-step relation `Step`, one
label per atomic block of the source.
-/

/-- Job status strings used by `consumer.py`: `"queued"`, `"running"`,
`"completed"`, `"failed"`, `"cancelled"`, plus the `awaiting_input` status
named by the design documents. -/
inductive Status where
  | queued
  | running
  | awaitingInput
  | completed
  | failed
  | cancelled
  deriving DecidableEq, Repr

/-- The terminal statuses, the list `["completed", "failed", "cancelled"]`
tested in `_cleanup_completed_jobs`. -/
def Status.isTerminal : Status → Bool
  | .completed => true
  | .failed => true
  | .cancelled => true
  | _ => false

/-- The `job_data` dict built in `add_scraping_job` and mutated by the
scheduler and by `_run_job`: identity, target url, owning client, status,
timestamps (seconds), result and error fields. -/
structure JobRec where
  jobId : String
  url : String
  clientId : String
  status : Status
  createdAt : Nat
  startedAt : Option Nat := none
  completedAt : Option Nat := none
  result : Option String := none
  error : Option String := none
  deriving DecidableEq, Repr

/-- First record with the given `job_id`, as in the membership tests
`job_id in self.active_jobs` and the scan of `self.job_queue`. -/
def lookupJob (jobs : List JobRec) (jid : String) : Option JobRec :=
  jobs.find? (fun j => j.jobId == jid)

/-- Dict-style update of the record keyed `jid` (unique keys, so the
conditional map touches exactly the entry the Python dict assignment
mutates). -/
def updateJob (jobs : List JobRec) (jid : String) (f : JobRec → JobRec) : List JobRec :=
  jobs.map (fun j => if j.jobId == jid then f j else j)

/-- `del self.job_queue[i]` for the first index whose record matches
`job_id` (the loop in `cancel_job` returns right after the deletion). -/
def removeFirstJob : List JobRec → String → List JobRec
  | [], _ => []
  | j :: rest, jid => if j.jobId == jid then rest else j :: removeFirstJob rest jid

/-- Dict lookup `m[k]` on an association list. -/
def alLookup (m : List (String × String)) (k : String) : Option String :=
  (m.find? (fun p => p.1 == k)).map Prod.snd

/-- Dict assignment `m[k] = v`: overwrite in place when the key exists,
append otherwise. -/
def alInsert (m : List (String × String)) (k v : String) : List (String × String) :=
  if (m.find? (fun p => p.1 == k)).isSome then
    m.map (fun p => if p.1 == k then (k, v) else p)
  else
    m ++ [(k, v)]

/-- Dict removal `m.pop(k)`'s effect on the table. -/
def alErase (m : List (String × String)) (k : String) : List (String × String) :=
  m.filter (fun p => p.1 != k)

/-- State of one `JobQueue` instance (`consumer.py`): the FIFO `job_queue`,
the in-flight table `active_jobs`, the human-input buffer
`human_input_queue`, and the current wall clock. -/
structure JQState where
  jobQueue : List JobRec
  activeJobs : List JobRec
  humanInputQueue : List (String × String)
  now : Nat
  deriving DecidableEq, Repr

/-- `JobQueue.add_scraping_job`: builds the `job_data` dict with
`status="queued"` and `created_at=utcnow()` and appends it to the FIFO.
The fresh `uuid4` identifier is a parameter here. -/
def add_scraping_job (s : JQState) (jobId url clientId : String) : JQState :=
  let jobData : JobRec :=
    { jobId := jobId, url := url, clientId := clientId,
      status := .queued, createdAt := s.now }
  { s with jobQueue := s.jobQueue ++ [jobData] }

/-- `JobQueue.submit_human_input`: unconditionally stores
`self.human_input_queue[job_id] = user_input` and returns.  The source
performs no existence or status check and has no failure path. -/
def submit_human_input (s : JQState) (jobId userInput : String) : JQState :=
  { s with humanInputQueue := alInsert s.humanInputQueue jobId userInput }

/-- `JobQueue.cancel_job`: first scans the FIFO and deletes the first
matching entry (returning `True`); otherwise, if the id is in
`active_jobs`, sets that record's `status` to `"cancelled"` (returning
`True`, with no check that the job is still non-terminal); otherwise
returns `False`. -/
def cancel_job (s : JQState) (jobId : String) : Bool × JQState :=
  if (s.jobQueue.find? (fun j => j.jobId == jobId)).isSome then
    (true, { s with jobQueue := removeFirstJob s.jobQueue jobId })
  else if (lookupJob s.activeJobs jobId).isSome then
    let f : JobRec → JobRec := fun j => { j with status := .cancelled }
    (true, { s with activeJobs := updateJob s.activeJobs jobId f })
  else
    (false, s)

/-- `JobQueue._process_next_job`, success path: pops the FIFO head, puts
the record into `active_jobs`, sets `status="running"` and
`started_at=utcnow()`, and fires off `_run_job` as a background task
(the task's own effects are separate steps). -/
def process_next_job (s : JQState) : JQState :=
  match s.jobQueue with
  | [] => s
  | jobData :: rest =>
      let started := { jobData with status := .running, startedAt := some s.now }
      { s with jobQueue := rest, activeJobs := s.activeJobs ++ [started] }

/-- `JobQueue._process_next_job`, exception path: the popped record is
already in `active_jobs` when the `try` block raises (orchestrator
construction), so the `except` clause leaves it there with
`status="failed"` and `error=str(e)`; no `completed_at` is recorded. -/
def process_next_job_err (s : JQState) (e : String) : JQState :=
  match s.jobQueue with
  | [] => s
  | jobData :: rest =>
      let failedJob :=
        { jobData with status := .failed, startedAt := some s.now, error := some e }
      { s with jobQueue := rest, activeJobs := s.activeJobs ++ [failedJob] }

/-- One iteration of the `while` loop in `_run_job.human_input_callback`. -/
inductive PollResult where
  | delivered (value : String)
  | cancelledRaise
  | keepWaiting
  deriving DecidableEq, Repr

/-- One check of `human_input_callback`: if `job_id in human_input_queue`
the loop exits and `pop` removes and returns the value; otherwise, if the
record's status reads `"cancelled"`, `Exception("Job cancelled")` is
raised; otherwise the callback sleeps and polls again. -/
def human_input_poll (s : JQState) (jobId : String) : PollResult × JQState :=
  match alLookup s.humanInputQueue jobId with
  | some v => (.delivered v, { s with humanInputQueue := alErase s.humanInputQueue jobId })
  | none =>
      match lookupJob s.activeJobs jobId with
      | some r => if r.status = .cancelled then (.cancelledRaise, s) else (.keepWaiting, s)
      | none => (.keepWaiting, s)

/-- `_run_job`, success epilogue: `status="completed"`, `result=result`,
`completed_at=utcnow()` on the job's record. -/
def run_job_complete (s : JQState) (jobId result : String) : JQState :=
  let f : JobRec → JobRec := fun j =>
    { j with status := .completed, result := some result, completedAt := some s.now }
  { s with activeJobs := updateJob s.activeJobs jobId f }

/-- `_run_job`, exception handler: `status="failed"`, `error=str(e)`,
`completed_at=utcnow()` on the job's record. -/
def run_job_fail (s : JQState) (jobId e : String) : JQState :=
  let f : JobRec → JobRec := fun j =>
    { j with status := .failed, error := some e, completedAt := some s.now }
  { s with activeJobs := updateJob s.activeJobs jobId f }

/-- The eviction test of `_cleanup_completed_jobs`: status in
`["completed", "failed", "cancelled"]`, a `completed_at` key present, and
`(current_time - completed_at).total_seconds() > 3600`. -/
def shouldEvict (now : Nat) (j : JobRec) : Bool :=
  j.status.isTerminal &&
    match j.completedAt with
    | some t => now - t > 3600
    | none => false

/-- `JobQueue._cleanup_completed_jobs`: deletes from `active_jobs` every
record passing the eviction test. -/
def cleanup_completed_jobs (s : JQState) : JQState :=
  { s with activeJobs := s.activeJobs.filter (fun j => !(shouldEvict s.now j)) }

/-- `JobQueue.get_job_status`: the `active_jobs` entry if present, else a
scan of the FIFO, else `None`. -/
def get_job_status (s : JQState) (jobId : String) : Option JobRec :=
  match lookupJob s.activeJobs jobId with
  | some j => some j
  | none => s.jobQueue.find? (fun j => j.jobId == jobId)

/-- The freshly constructed `JobQueue()` instance. -/
def initState : JQState :=
  { jobQueue := [], activeJobs := [], humanInputQueue := [], now := 0 }

/-- A JSON event pushed over a client's WebSocket (the `data` payload dict
is flattened to string pairs). -/
structure WsEvent where
  typeTag : String
  message : String
  jobId : String
  data : List (String × String)
  deriving DecidableEq, Repr

/-- One entry of `WebSocketManager.active_connections`: the remote end may
have closed (`alive = false`, in which case `send_text` raises), and the
channel records the events written to it so far. -/
structure Channel where
  alive : Bool
  sent : List WsEvent
  deriving DecidableEq, Repr

/-- State of the `WebSocketManager` singleton (`websockets.py`). -/
structure WSState where
  activeConnections : List (String × Channel)
  deriving DecidableEq, Repr

/-- `WebSocketManager.disconnect`: drops the client's entry when present. -/
def disconnect (st : WSState) (clientId : String) : WSState :=
  { activeConnections := st.activeConnections.filter (fun p => p.1 != clientId) }

/-- `WebSocketManager.send_json_message`: no-op when `client_id` is not in
`active_connections`; otherwise `send_text` either appends the event to the
channel or raises, and the `except` clause swallows the exception and calls
`disconnect(client_id)` — nothing propagates to the caller. -/
def send_json_message (st : WSState) (data : WsEvent) (clientId : String) : WSState :=
  match st.activeConnections.find? (fun p => p.1 == clientId) with
  | none => st
  | some (_, ch) =>
      if ch.alive then
        let g : String × Channel → String × Channel := fun p =>
          if p.1 == clientId then (p.1, { p.2 with sent := p.2.sent ++ [data] }) else p
        { activeConnections := st.activeConnections.map g }
      else
        disconnect st clientId

/-- The JSON payload `HumanInputTool._arun` sends through
`send_progress_update` before waiting on the callback: type
`"agent_progress"`, message `"Human input required"`, and data
`{"requires_human_input": True, "prompt": prompt, "input_type": input_type}`. -/
def human_input_required_event (jobId prompt inputType : String) : WsEvent :=
  { typeTag := "agent_progress", message := "Human input required", jobId := jobId,
    data := [("requires_human_input", "true"), ("prompt", prompt),
             ("input_type", inputType)] }

/-- Combined state: the `JobQueue` and the `WebSocketManager` singleton. -/
structure SysState where
  jq : JQState
  ws : WSState
  deriving DecidableEq, Repr

/-- The notification half of `HumanInputTool._arun`: the tool sends the
human-input-required payload to its `client_id` and only then enters the
callback's wait loop.  The job-queue state is untouched. -/
def request_human_input_notify (s : SysState) (clientId jobId prompt inputType : String) :
    SysState :=
  let ev := human_input_required_event jobId prompt inputType
  { s with ws := send_json_message s.ws ev clientId }

/-- Labels for the atomic blocks of `consumer.py` that an interleaved
execution serialises: each public operation, the two halves of
`_process_next_job`, one poll iteration of `human_input_callback`, the two
epilogues of `_run_job`, a cleanup sweep, and the wall clock advancing. -/
inductive Label where
  | admitJob (jobId url clientId : String)
  | start (jobId : String)
  | startErr (jobId err : String)
  | submitInput (jobId value : String)
  | cancel (jobId : String)
  | poll (jobId : String)
  | finishOk (jobId result : String)
  | finishErr (jobId err : String)
  | cleanup
  | tick (d : Nat)
  deriving DecidableEq, Repr

/-- Small-step semantics of one `JobQueue` instance: any operation may run
at any moment (the callers and the spawned `_run_job` tasks interleave
arbitrarily with the consumer loop). `start`/`startErr` fire only when the
FIFO is non-empty, as in the consumer loop's `if self.job_queue` guard, and
carry the started job's id.  `admit`'s side conditions embed the freshness
of `uuid.uuid4()`: a newly generated id collides with no live job. -/
inductive Step : JQState → Label → JQState → Prop where
  | admitJob (s : JQState) (jobId url clientId : String)
      (hfq : (s.jobQueue.find? (fun j => j.jobId == jobId)).isNone)
      (hfa : (lookupJob s.activeJobs jobId).isNone) :
      Step s (.admitJob jobId url clientId) (add_scraping_job s jobId url clientId)
  | start (s : JQState) (j : JobRec) (rest : List JobRec)
      (h : s.jobQueue = j :: rest) :
      Step s (.start j.jobId) (process_next_job s)
  | startErr (s : JQState) (j : JobRec) (rest : List JobRec) (e : String)
      (h : s.jobQueue = j :: rest) :
      Step s (.startErr j.jobId e) (process_next_job_err s e)
  | submitInput (s : JQState) (jobId v : String) :
      Step s (.submitInput jobId v) (submit_human_input s jobId v)
  | cancel (s : JQState) (jobId : String) :
      Step s (.cancel jobId) (cancel_job s jobId).2
  | poll (s : JQState) (jobId : String) :
      Step s (.poll jobId) (human_input_poll s jobId).2
  | finishOk (s : JQState) (jobId result : String) :
      Step s (.finishOk jobId result) (run_job_complete s jobId result)
  | finishErr (s : JQState) (jobId e : String) :
      Step s (.finishErr jobId e) (run_job_fail s jobId e)
  | cleanup (s : JQState) :
      Step s .cleanup (cleanup_completed_jobs s)
  | tick (s : JQState) (d : Nat) :
      Step s (.tick d) { s with now := s.now + d }

/-- A finite execution: the trace of labels from one state to another. -/
inductive Run : JQState → List Label → JQState → Prop where
  | nil (s : JQState) : Run s [] s
  | cons {s s' s'' : JQState} {l : Label} {tr : List Label} :
      Step s l s' → Run s' tr s'' → Run s (l :: tr) s''

/-- The ids of the `Admit` calls of a trace, in order. -/
def admittedIds : List Label → List String
  | [] => []
  | .admitJob jobId _ _ :: tr => jobId :: admittedIds tr
  | _ :: tr => admittedIds tr

/-- The ids of the jobs the consumer loop started (popped from the FIFO
into `running`), in order. -/
def startedIds : List Label → List String
  | [] => []
  | .start jobId :: tr => jobId :: startedIds tr
  | _ :: tr => startedIds tr

/-- The FIFO's ids, in queue order. -/
def queueIds (s : JQState) : List String :=
  s.jobQueue.map JobRec.jobId

/-- The in-flight table's ids. -/
def activeIds (s : JQState) : List String :=
  s.activeJobs.map JobRec.jobId

/-- Failure modes the design document assigns to `SubmitHumanInput`. -/
inductive SubmitError where
  | noSuchJob
  | notAwaitingInput
  deriving DecidableEq, Repr

/-- Modelled from the spec: `SubmitHumanInput(job_id, value)` "delivers
`value` into the `HumanInputRegistry` slot for `job_id`. Fails with
`NoSuchJob` if the job is unknown; fails with `NotAwaitingInput` if the job
is not currently suspended for input".  This contract is absent from the
source (`JobQueue.submit_human_input` checks nothing); it is stated here
only to compare the source behaviour against it. -/
def submitHumanInputSpecModel (s : JQState) (jobId value : String) :
    Except SubmitError JQState :=
  match get_job_status s jobId with
  | none => .error .noSuchJob
  | some r =>
      if r.status = .awaitingInput then
        .ok { s with humanInputQueue := alInsert s.humanInputQueue jobId value }
      else
        .error .notAwaitingInput

/-! ### Concrete states used to evaluate the definitions -/

/-- An in-flight job mid-execution. -/
def exRunningJob : JobRec :=
  { jobId := "j-run", url := "https://example.com", clientId := "client-1",
    status := .running, createdAt := 0, startedAt := some 1 }

def exRunningJQ : JQState :=
  { jobQueue := [], activeJobs := [exRunningJob], humanInputQueue := [], now := 2 }

/-- A connected client with a live WebSocket. -/
def exLiveWS : WSState :=
  { activeConnections := [("client-1", { alive := true, sent := [] })] }

def exSys : SysState := { jq := exRunningJQ, ws := exLiveWS }

/-- The running job with a buffered human input awaiting pickup. -/
def exBufState : JQState :=
  { jobQueue := [], activeJobs := [exRunningJob], humanInputQueue := [("j-run", "alpha")], now := 2 }

/-- A job that already finished successfully. -/
def exCompletedJob : JobRec :=
  { jobId := "j-done", url := "https://example.com", clientId := "client-1",
    status := .completed, createdAt := 0, startedAt := some 1, completedAt := some 10,
    result := some "ok" }

def exCompletedState : JQState :=
  { jobQueue := [], activeJobs := [exCompletedJob], humanInputQueue := [], now := 20 }

/-- A job still sitting in the FIFO. -/
def exQueuedJob : JobRec :=
  { jobId := "j-q", url := "https://example.com", clientId := "client-1",
    status := .queued, createdAt := 0 }

def exQueuedState : JQState :=
  { jobQueue := [exQueuedJob], activeJobs := [], humanInputQueue := [], now := 0 }

/-- An in-flight job cancelled mid-run: `cancel_job` set its status but no
`completed_at` was ever recorded. -/
def exCancelledJob : JobRec :=
  { jobId := "j-c", url := "https://example.com", clientId := "client-1",
    status := .cancelled, createdAt := 0, startedAt := some 1 }

def exCancelledState : JQState :=
  { jobQueue := [], activeJobs := [exCancelledJob], humanInputQueue := [], now := 5 }

/-- A connected client whose remote end has closed. -/
def exDeadWS : WSState :=
  { activeConnections := [("client-2", { alive := false, sent := [] })] }

def exEvent : WsEvent :=
  { typeTag := "agent_progress", message := "hello", jobId := "j-run", data := [] }

/-- A two-admission, two-start execution of the consumer loop. -/
def exS1 : JQState := add_scraping_job initState "a" "u" "c"

def exS2 : JQState := add_scraping_job exS1 "b" "u" "c"

def exS3 : JQState := process_next_job exS2

def exS4 : JQState := process_next_job exS3

def exJobA : JobRec :=
  { jobId := "a", url := "u", clientId := "c", status := .queued, createdAt := 0 }

def exJobB : JobRec :=
  { jobId := "b", url := "u", clientId := "c", status := .queued, createdAt := 0 }

def exTr : List Label :=
  [.admitJob "a" "u" "c", .admitJob "b" "u" "c", .start "a", .start "b"]

/-- States of the eviction scenario: sweep, one hour and more passes,
sweep again. -/
def exC10a : JQState := cleanup_completed_jobs exCancelledState

def exC10b : JQState := { exC10a with now := exC10a.now + 999999 }

def exC10c : JQState := cleanup_completed_jobs exC10b

/-! ### Lemma kit: association lists and the in-flight table -/

lemma lookupJob_eq_none_of_not_mem {l : List JobRec} {jid : String}
    (h : jid ∉ l.map JobRec.jobId) : lookupJob l jid = none := by
  unfold lookupJob
  rw [List.find?_eq_none]
  intro x hx hpx
  exact h (List.mem_map.mpr ⟨x, hx, by simpa using hpx⟩)

lemma mem_of_lookupJob_eq_some {l : List JobRec} {jid : String} {r : JobRec}
    (h : lookupJob l jid = some r) : r ∈ l ∧ r.jobId = jid := by
  unfold lookupJob at h
  exact ⟨List.mem_of_find?_eq_some h, by simpa using List.find?_some h⟩

lemma lookupJob_updateJob {l : List JobRec} {a b : String} {f : JobRec → JobRec}
    (hf : ∀ x, (f x).jobId = x.jobId) :
    lookupJob (updateJob l a f) b
      = (lookupJob l b).map (fun x => if x.jobId == a then f x else x) := by
  unfold lookupJob updateJob
  rw [List.find?_map]
  have hcomp : ((fun j : JobRec => j.jobId == b) ∘ fun j => if j.jobId == a then f j else j)
      = fun j : JobRec => j.jobId == b := by
    funext x
    by_cases hxa : x.jobId == a <;> simp [Function.comp, hxa, hf x]
  rw [hcomp]

lemma lookupJob_append {l₁ l₂ : List JobRec} {jid : String} :
    lookupJob (l₁ ++ l₂) jid = (lookupJob l₁ jid).or (lookupJob l₂ jid) := by
  unfold lookupJob
  exact List.find?_append

lemma lookupJob_append_left {l₁ l₂ : List JobRec} {jid : String} {r : JobRec}
    (h : lookupJob l₁ jid = some r) : lookupJob (l₁ ++ l₂) jid = some r := by
  rw [lookupJob_append, h]
  rfl

lemma lookupJob_filter_nodup {l : List JobRec} {jid : String} {r : JobRec}
    (hnd : (l.map JobRec.jobId).Nodup) (h : lookupJob l jid = some r)
    (p : JobRec → Bool) :
    lookupJob (l.filter p) jid = if p r then some r else none := by
  induction l with
  | nil => simp [lookupJob] at h
  | cons x xs ih =>
      rw [List.map_cons, List.nodup_cons] at hnd
      unfold lookupJob at h ⊢
      rw [List.find?_cons] at h
      by_cases hx : (x.jobId == jid)
      · rw [hx] at h
        cases h
        by_cases hp : p r
        · simp [List.filter_cons, hp, List.find?_cons, hx]
        · have hpf : p r = false := by simpa using hp
          simp only [List.filter_cons, hpf, if_neg, Bool.false_eq_true, not_false_iff]
          rw [List.find?_eq_none]
          intro y hy hpy
          have hyjid : y.jobId = jid := by simpa using hpy
          have hjid : r.jobId = jid := by simpa using hx
          exact hnd.1 (hjid ▸ hyjid ▸ List.mem_map_of_mem JobRec.jobId
            (List.mem_of_mem_filter hy))
      · have hxf : (x.jobId == jid) = false := by simpa using hx
        rw [hxf] at h
        have := ih hnd.2 h
        by_cases hp : p x
        · simpa [List.filter_cons, hp, lookupJob, List.find?_cons, hxf] using this
        · have hpf : p x = false := by simpa using hp
          simpa [List.filter_cons, hpf, lookupJob] using this

lemma lookupJob_filter_none {l : List JobRec} {jid : String}
    (h : lookupJob l jid = none) (p : JobRec → Bool) :
    lookupJob (l.filter p) jid = none := by
  unfold lookupJob at h ⊢
  rw [List.find?_eq_none] at h ⊢
  exact fun x hx => h x (List.mem_of_mem_filter hx)

lemma removeFirstJob_sublist (l : List JobRec) (jid : String) :
    List.Sublist (removeFirstJob l jid) l := by
  induction l with
  | nil => simp [removeFirstJob]
  | cons x xs ih =>
      unfold removeFirstJob
      by_cases hx : (x.jobId == jid)
      · simp only [hx, if_pos]
        exact List.sublist_cons_self x xs
      · simp only [hx, if_neg, Bool.false_eq_true, not_false_iff]
        exact List.Sublist.cons₂ x ih

lemma find?_overwrite (m : List (String × String)) (k k' v : String) :
    List.find? (fun p : String × String => p.1 == k')
        (m.map (fun p => if p.1 == k then (k, v) else p))
      = (List.find? (fun p : String × String => p.1 == k') m).map
          (fun p => if p.1 == k then (k, v) else p) := by
  rw [List.find?_map]
  by_cases hkk : k = k'
  · subst hkk
    have hcomp : ((fun p : String × String => p.1 == k) ∘
        fun p => if p.1 == k then (k, v) else p) = fun p : String × String => p.1 == k := by
      funext p
      by_cases hp : p.1 == k <;> simp [Function.comp, hp]
    rw [hcomp]
  · have hcomp : ((fun p : String × String => p.1 == k') ∘
        fun p => if p.1 == k then (k, v) else p) = fun p : String × String => p.1 == k' := by
      funext p
      by_cases hp : p.1 == k
      · have hpk : p.1 = k := by simpa using hp
        simp [Function.comp, hp, hpk, hkk]
      · simp [Function.comp, hp]
    rw [hcomp]

lemma alLookup_alInsert_self (m : List (String × String)) (k v : String) :
    alLookup (alInsert m k v) k = some v := by
  unfold alInsert
  by_cases hk : (m.find? (fun p => p.1 == k)).isSome
  · simp only [hk, if_pos]
    unfold alLookup
    rw [find?_overwrite]
    obtain ⟨q, hq⟩ := Option.isSome_iff_exists.mp hk
    have hq1 := List.find?_some hq
    have hq1' : q.1 = k := by simpa using hq1
    rw [hq]
    simp [hq1']
  · simp only [hk, if_neg, Bool.false_eq_true, not_false_iff]
    unfold alLookup
    rw [List.find?_append]
    have hnone : m.find? (fun p => p.1 == k) = none := by
      cases hfind : m.find? (fun p => p.1 == k) with
      | none => rfl
      | some q => rw [hfind] at hk; simp at hk
    rw [hnone]
    simp [List.find?_cons]

lemma alLookup_alInsert_ne (m : List (String × String)) {k k' : String} (v : String)
    (h : k' ≠ k) : alLookup (alInsert m k v) k' = alLookup m k' := by
  unfold alInsert
  by_cases hk : (m.find? (fun p => p.1 == k)).isSome
  · simp only [hk, if_pos]
    unfold alLookup
    rw [find?_overwrite]
    cases hfind : m.find? (fun p => p.1 == k') with
    | none => rfl
    | some q =>
        have hq1 := List.find?_some hfind
        have hq1' : q.1 = k' := by simpa using hq1
        have hqk : (q.1 == k) = false := by
          rw [hq1']
          simpa using h
        have hne : ¬(q.1 = k) := by simpa using hqk
        simp [hqk, hne]
  · simp only [hk, if_neg, Bool.false_eq_true, not_false_iff]
    unfold alLookup
    rw [List.find?_append]
    have hsingle : List.find? (fun p : String × String => p.1 == k') [(k, v)] = none := by
      have : ((k, v).1 == k') = false := by simpa using fun hkk' => h hkk'.symm
      simp [List.find?_cons, this]
    rw [hsingle]
    cases m.find? (fun p => p.1 == k') <;> rfl

lemma alLookup_alErase_self (m : List (String × String)) (k : String) :
    alLookup (alErase m k) k = none := by
  unfold alLookup alErase
  have : List.find? (fun p => p.1 == k) (m.filter (fun p => p.1 != k)) = none := by
    rw [List.find?_eq_none]
    intro x hx hpx
    have hne := List.of_mem_filter hx
    simp [bne] at hne
    exact hne (by simpa using hpx)
  rw [this]
  rfl

/-! ### Lemma kit: what each operation leaves untouched -/

lemma poll_snd_cases (s : JQState) (jid : String) :
    (human_input_poll s jid).2 = s ∨
    (human_input_poll s jid).2 = { s with humanInputQueue := alErase s.humanInputQueue jid } := by
  unfold human_input_poll
  cases alLookup s.humanInputQueue jid with
  | some v => right; rfl
  | none =>
      cases lookupJob s.activeJobs jid with
      | some r =>
          left
          show (if r.status = Status.cancelled then ((PollResult.cancelledRaise, s) : PollResult × JQState) else (PollResult.keepWaiting, s)).2 = s
          by_cases hc : r.status = .cancelled
          · rw [if_pos hc]
          · rw [if_neg hc]
      | none => left; rfl

lemma poll_snd_components (s : JQState) (jid : String) :
    (human_input_poll s jid).2.activeJobs = s.activeJobs ∧
    (human_input_poll s jid).2.jobQueue = s.jobQueue ∧
    (human_input_poll s jid).2.now = s.now := by
  rcases poll_snd_cases s jid with h | h <;> rw [h] <;> exact ⟨rfl, rfl, rfl⟩

lemma process_next_job_eq {s : JQState} {j : JobRec} {rest : List JobRec}
    (h : s.jobQueue = j :: rest) :
    process_next_job s =
      { s with jobQueue := rest,
               activeJobs := s.activeJobs ++
                 [{ j with status := .running, startedAt := some s.now }] } := by
  unfold process_next_job
  rw [h]

lemma process_next_job_err_eq {s : JQState} {j : JobRec} {rest : List JobRec}
    (e : String) (h : s.jobQueue = j :: rest) :
    process_next_job_err s e =
      { s with jobQueue := rest,
               activeJobs := s.activeJobs ++
                 [{ j with status := .failed, startedAt := some s.now,
                           error := some e }] } := by
  unfold process_next_job_err
  rw [h]

/-- Which branch of `cancel_job` runs, and what it does. -/
lemma cancel_job_cases (s : JQState) (jid : String) :
    ((s.jobQueue.find? (fun j => j.jobId == jid)).isSome = true ∧
      cancel_job s jid = (true, { s with jobQueue := removeFirstJob s.jobQueue jid })) ∨
    ((s.jobQueue.find? (fun j => j.jobId == jid)).isSome = false ∧
      (lookupJob s.activeJobs jid).isSome = true ∧
      cancel_job s jid = (true, { s with activeJobs := updateJob s.activeJobs jid (fun j => { j with status := .cancelled }) })) ∨
    ((s.jobQueue.find? (fun j => j.jobId == jid)).isSome = false ∧
      (lookupJob s.activeJobs jid).isSome = false ∧
      cancel_job s jid = (false, s)) := by
  unfold cancel_job
  by_cases h1 : (s.jobQueue.find? (fun j => j.jobId == jid)).isSome
  · left
    exact ⟨h1, by simp [h1]⟩
  · by_cases h2 : (lookupJob s.activeJobs jid).isSome
    · right; left
      refine ⟨by simpa using h1, h2, ?_⟩
      simp [h1, h2]
    · right; right
      refine ⟨by simpa using h1, by simpa using h2, ?_⟩
      simp [h1, h2]

/-! ### Lemma kit: record tracking across one step -/

lemma lookupJob_jobId {l : List JobRec} {jid : String} {r : JobRec}
    (h : lookupJob l jid = some r) : (r.jobId == jid) = true := by
  simpa using (mem_of_lookupJob_eq_some h).2

/-- Where a record of the in-flight table goes under one step: it stays as
it is, or `cancel_job` flips its status to `cancelled`, or a `_run_job`
epilogue rewrites it, or a cleanup sweep evicts it (the latter only when
the eviction test holds). -/
lemma step_lookup_active {s s' : JQState} {l : Label} {jid : String} {r : JobRec}
    (hstep : Step s l s')
    (hr : lookupJob s.activeJobs jid = some r)
    (hnd : (s.activeJobs.map JobRec.jobId).Nodup) :
    lookupJob s'.activeJobs jid = some r ∨
    (l = .cancel jid ∧
      lookupJob s'.activeJobs jid = some { r with status := .cancelled }) ∨
    (∃ v, l = .finishOk jid v ∧
      lookupJob s'.activeJobs jid = some { r with status := .completed, result := some v, completedAt := some s.now }) ∨
    (∃ e, l = .finishErr jid e ∧
      lookupJob s'.activeJobs jid = some { r with status := .failed, error := some e, completedAt := some s.now }) ∨
    (l = .cleanup ∧ shouldEvict s.now r = true ∧ lookupJob s'.activeJobs jid = none) := by
  cases hstep with
  | admitJob jobId0 url clientId hfq hfa => exact Or.inl hr
  | start j rest h =>
      left
      rw [process_next_job_eq h]
      exact lookupJob_append_left hr
  | startErr j rest e h =>
      left
      rw [process_next_job_err_eq e h]
      exact lookupJob_append_left hr
  | submitInput jobId0 v => exact Or.inl hr
  | cancel jobId0 =>
      rcases cancel_job_cases s jobId0 with ⟨hq, heq⟩ | ⟨hq, ha, heq⟩ | ⟨hq, ha, heq⟩
      · left; rw [heq]; exact hr
      · rw [heq]
        have hupd := lookupJob_updateJob
          (l := s.activeJobs) (a := jobId0) (b := jid)
          (f := fun j => { j with status := .cancelled }) (fun x => rfl)
        by_cases hj : jid = jobId0
        · subst hj
          right; left
          refine ⟨rfl, ?_⟩
          show lookupJob (updateJob s.activeJobs jid (fun j => { j with status := .cancelled })) jid = _
          rw [hupd, hr]
          simp [lookupJob_jobId hr]
          intro hcon
          exact absurd (by simpa using lookupJob_jobId hr) hcon
        · left
          show lookupJob (updateJob s.activeJobs jobId0 (fun j => { j with status := .cancelled })) jid = some r
          rw [hupd, hr]
          have : (r.jobId == jobId0) = false := by
            have := lookupJob_jobId hr
            have hrj : r.jobId = jid := by simpa using this
            rw [hrj]
            simpa using fun hx => hj hx
          simp [this]
          intro hcon
          have hrj : r.jobId = jid := by simpa using lookupJob_jobId hr
          exact absurd (hrj ▸ hcon) hj
      · left; rw [heq]; exact hr
  | poll jobId0 =>
      left
      rcases poll_snd_cases s jobId0 with h | h <;> rw [h] <;> exact hr
  | finishOk jobId0 v =>
      have hupd := lookupJob_updateJob
        (l := s.activeJobs) (a := jobId0) (b := jid)
        (f := fun j => { j with status := .completed, result := some v, completedAt := some s.now })
        (fun x => rfl)
      by_cases hj : jid = jobId0
      · subst hj
        right; right; left
        refine ⟨v, rfl, ?_⟩
        show lookupJob (updateJob s.activeJobs jid _) jid = _
        rw [hupd, hr]
        simp [lookupJob_jobId hr]
        intro hcon
        exact absurd (by simpa using lookupJob_jobId hr) hcon
      · left
        show lookupJob (updateJob s.activeJobs jobId0 _) jid = some r
        rw [hupd, hr]
        have : (r.jobId == jobId0) = false := by
          have hrj : r.jobId = jid := by simpa using lookupJob_jobId hr
          rw [hrj]
          simpa using fun hx => hj hx
        simp [this]
        intro hcon
        have hrj : r.jobId = jid := by simpa using lookupJob_jobId hr
        exact absurd (hrj ▸ hcon) hj
  | finishErr jobId0 e =>
      have hupd := lookupJob_updateJob
        (l := s.activeJobs) (a := jobId0) (b := jid)
        (f := fun j => { j with status := .failed, error := some e, completedAt := some s.now })
        (fun x => rfl)
      by_cases hj : jid = jobId0
      · subst hj
        right; right; right; left
        refine ⟨e, rfl, ?_⟩
        show lookupJob (updateJob s.activeJobs jid _) jid = _
        rw [hupd, hr]
        simp [lookupJob_jobId hr]
        intro hcon
        exact absurd (by simpa using lookupJob_jobId hr) hcon
      · left
        show lookupJob (updateJob s.activeJobs jobId0 _) jid = some r
        rw [hupd, hr]
        have : (r.jobId == jobId0) = false := by
          have hrj : r.jobId = jid := by simpa using lookupJob_jobId hr
          rw [hrj]
          simpa using fun hx => hj hx
        simp [this]
        intro hcon
        have hrj : r.jobId = jid := by simpa using lookupJob_jobId hr
        exact absurd (hrj ▸ hcon) hj
  | cleanup =>
      have hfil := lookupJob_filter_nodup hnd hr (fun j => !(shouldEvict s.now j))
      by_cases he : shouldEvict s.now r
      · right; right; right; right
        refine ⟨rfl, he, ?_⟩
        show lookupJob (s.activeJobs.filter fun j => !(shouldEvict s.now j)) jid = none
        rw [hfil]
        simp [he]
      · left
        show lookupJob (s.activeJobs.filter fun j => !(shouldEvict s.now j)) jid = some r
        rw [hfil]
        simp [he]
  | tick d => exact Or.inl hr

/-- An id absent from the FIFO stays absent under any step that is not an
admission of that very id. -/
lemma step_queue_none {s s' : JQState} {l : Label} {jid : String}
    (hstep : Step s l s')
    (hq : s.jobQueue.find? (fun j => j.jobId == jid) = none)
    (hadm : ∀ url clientId, l ≠ .admitJob jid url clientId) :
    s'.jobQueue.find? (fun j => j.jobId == jid) = none := by
  cases hstep with
  | admitJob jobId0 url clientId hfq hfa =>
      have hne : jobId0 ≠ jid := by
        intro h
        exact hadm url clientId (by rw [h])
      show ((s.jobQueue ++ [({ jobId := jobId0, url := url, clientId := clientId, status := .queued, createdAt := s.now } : JobRec)]).find? (fun j => j.jobId == jid)) = none
      rw [List.find?_append, hq]
      simp [List.find?_cons, hne]
  | start j rest h =>
      rw [process_next_job_eq h]
      show rest.find? (fun j => j.jobId == jid) = none
      rw [List.find?_eq_none] at hq ⊢
      intro x hx
      exact hq x (by rw [h]; exact List.mem_cons_of_mem j hx)
  | startErr j rest e h =>
      rw [process_next_job_err_eq e h]
      show rest.find? (fun j => j.jobId == jid) = none
      rw [List.find?_eq_none] at hq ⊢
      intro x hx
      exact hq x (by rw [h]; exact List.mem_cons_of_mem j hx)
  | submitInput jobId0 v => exact hq
  | cancel jobId0 =>
      rcases cancel_job_cases s jobId0 with ⟨hqs, heq⟩ | ⟨hqs, ha, heq⟩ | ⟨hqs, ha, heq⟩
      · rw [heq]
        show (removeFirstJob s.jobQueue jobId0).find? (fun j => j.jobId == jid) = none
        rw [List.find?_eq_none] at hq ⊢
        intro x hx
        exact hq x (List.Sublist.subset (removeFirstJob_sublist s.jobQueue jobId0) hx)
      · rw [heq]; exact hq
      · rw [heq]; exact hq
  | poll jobId0 =>
      rw [(poll_snd_components s jobId0).2.1]
      exact hq
  | finishOk jobId0 v => exact hq
  | finishErr jobId0 e => exact hq
  | cleanup => exact hq
  | tick d => exact hq

/-- An id absent from both tables never re-enters the in-flight table:
only a FIFO pop puts records there. -/
lemma step_active_none {s s' : JQState} {l : Label} {jid : String}
    (hstep : Step s l s')
    (ha : lookupJob s.activeJobs jid = none)
    (hq : s.jobQueue.find? (fun j => j.jobId == jid) = none) :
    lookupJob s'.activeJobs jid = none := by
  cases hstep with
  | admitJob jobId0 url clientId hfq hfa => exact ha
  | start j rest h =>
      rw [process_next_job_eq h]
      have hjne : (j.jobId == jid) = false := by
        rw [h, List.find?_eq_none] at hq
        simpa using hq j (List.mem_cons_self j rest)
      show lookupJob (s.activeJobs ++ [{ j with status := .running, startedAt := some s.now }]) jid = none
      rw [lookupJob_append, ha]
      simp [lookupJob, List.find?_cons, hjne]
  | startErr j rest e h =>
      rw [process_next_job_err_eq e h]
      have hjne : (j.jobId == jid) = false := by
        rw [h, List.find?_eq_none] at hq
        simpa using hq j (List.mem_cons_self j rest)
      show lookupJob (s.activeJobs ++ [{ j with status := .failed, startedAt := some s.now, error := some e }]) jid = none
      rw [lookupJob_append, ha]
      simp [lookupJob, List.find?_cons, hjne]
  | submitInput jobId0 v => exact ha
  | cancel jobId0 =>
      rcases cancel_job_cases s jobId0 with ⟨hqs, heq⟩ | ⟨hqs, has, heq⟩ | ⟨hqs, has, heq⟩
      · rw [heq]; exact ha
      · rw [heq]
        have hupd := lookupJob_updateJob (l := s.activeJobs) (a := jobId0) (b := jid)
          (f := fun j => { j with status := .cancelled }) (fun x => rfl)
        show lookupJob (updateJob s.activeJobs jobId0 (fun j => { j with status := .cancelled })) jid = none
        rw [hupd, ha]
        rfl
      · rw [heq]; exact ha
  | poll jobId0 =>
      rw [(poll_snd_components s jobId0).1]
      exact ha
  | finishOk jobId0 v =>
      have hupd := lookupJob_updateJob (l := s.activeJobs) (a := jobId0) (b := jid)
        (f := fun j => { j with status := .completed, result := some v, completedAt := some s.now })
        (fun x => rfl)
      show lookupJob (updateJob s.activeJobs jobId0 _) jid = none
      rw [hupd, ha]
      rfl
  | finishErr jobId0 e =>
      have hupd := lookupJob_updateJob (l := s.activeJobs) (a := jobId0) (b := jid)
        (f := fun j => { j with status := .failed, error := some e, completedAt := some s.now })
        (fun x => rfl)
      show lookupJob (updateJob s.activeJobs jobId0 _) jid = none
      rw [hupd, ha]
      rfl
  | cleanup =>
      exact lookupJob_filter_none ha _
  | tick d => exact ha

/-- Core scheduling invariant behind FIFO ordering: the ids started during
a trace, followed by the ids still queued at its end, form a sublist of
the initially queued ids followed by the ids admitted during the trace. -/
lemma run_started_sublist {s0 s : JQState} {tr : List Label} (h : Run s0 tr s) :
    List.Sublist (startedIds tr ++ queueIds s) (queueIds s0 ++ admittedIds tr) := by
  induction h with
  | nil s1 => simp [startedIds, admittedIds]
  | @cons s1 s2 s3 l tr hstep hrun ih =>
      cases hstep with
      | admitJob jobId0 url clientId hfq hfa =>
          show List.Sublist (startedIds tr ++ queueIds s3)
            (queueIds s1 ++ (jobId0 :: admittedIds tr))
          have hq2 : queueIds (add_scraping_job s1 jobId0 url clientId)
              = queueIds s1 ++ [jobId0] := by
            unfold queueIds add_scraping_job
            simp
          rw [List.append_cons]
          rw [hq2] at ih
          exact ih
      | start j rest hj =>
          show List.Sublist (j.jobId :: (startedIds tr ++ queueIds s3))
            (queueIds s1 ++ admittedIds tr)
          have hq1 : queueIds s1 = j.jobId :: (rest.map JobRec.jobId) := by
            unfold queueIds
            rw [hj]
            rfl
          have hq2 : queueIds (process_next_job s1) = rest.map JobRec.jobId := by
            rw [process_next_job_eq hj]
            rfl
          rw [hq2] at ih
          rw [hq1, List.cons_append]
          exact List.Sublist.cons₂ j.jobId ih
      | startErr j rest e hj =>
          show List.Sublist (startedIds tr ++ queueIds s3)
            (queueIds s1 ++ admittedIds tr)
          have hq1 : queueIds s1 = j.jobId :: (rest.map JobRec.jobId) := by
            unfold queueIds
            rw [hj]
            rfl
          have hq2 : queueIds (process_next_job_err s1 e) = rest.map JobRec.jobId := by
            rw [process_next_job_err_eq e hj]
            rfl
          rw [hq2] at ih
          rw [hq1, List.cons_append]
          exact List.Sublist.cons j.jobId ih
      | submitInput jobId0 v => exact ih
      | cancel jobId0 =>
          show List.Sublist (startedIds tr ++ queueIds s3)
            (queueIds s1 ++ admittedIds tr)
          rcases cancel_job_cases s1 jobId0 with ⟨hqs, heq⟩ | ⟨hqs, has, heq⟩ | ⟨hqs, has, heq⟩
          · rw [heq] at ih
            have hsub : List.Sublist (queueIds { s1 with jobQueue := removeFirstJob s1.jobQueue jobId0 }) (queueIds s1) :=
              List.Sublist.map JobRec.jobId (removeFirstJob_sublist s1.jobQueue jobId0)
            exact ih.trans (List.Sublist.append_right hsub (admittedIds tr))
          · rw [heq] at ih
            exact ih
          · rw [heq] at ih
            exact ih
      | poll jobId0 =>
          show List.Sublist (startedIds tr ++ queueIds s3)
            (queueIds s1 ++ admittedIds tr)
          have : queueIds (human_input_poll s1 jobId0).2 = queueIds s1 := by
            unfold queueIds
            rw [(poll_snd_components s1 jobId0).2.1]
          rw [this] at ih
          exact ih
      | finishOk jobId0 v => exact ih
      | finishErr jobId0 e => exact ih
      | cleanup => exact ih
      | tick d => exact ih

/-- No atomic block of `consumer.py` ever writes an `awaiting_input`
status: the statuses written are `queued`, `running`, `completed`,
`failed` and `cancelled` only. -/
lemma step_no_awaiting {s s' : JQState} {l : Label} (hstep : Step s l s')
    (hs : ∀ r : JobRec, (r ∈ s.jobQueue ∨ r ∈ s.activeJobs) → r.status ≠ .awaitingInput) :
    ∀ r : JobRec, (r ∈ s'.jobQueue ∨ r ∈ s'.activeJobs) → r.status ≠ .awaitingInput := by
  have hupd : ∀ (f : JobRec → JobRec) (jid : String),
      (∀ x : JobRec, (f x).status ≠ .awaitingInput) →
      ∀ r : JobRec, r ∈ updateJob s.activeJobs jid f → r.status ≠ .awaitingInput := by
    intro f jid hf r hr
    rcases List.mem_map.mp hr with ⟨x, hx, hfx⟩
    by_cases hid : (x.jobId == jid)
    · rw [← hfx, if_pos hid]
      exact hf x
    · rw [← hfx, if_neg hid]
      exact hs x (Or.inr hx)
  cases hstep with
  | admitJob jobId0 url clientId hfq hfa =>
      rintro r (hr | hr)
      · rcases List.mem_append.mp hr with hr | hr
        · exact hs r (Or.inl hr)
        · rcases List.mem_singleton.mp hr with rfl
          simp
      · exact hs r (Or.inr hr)
  | start j rest hj =>
      rw [process_next_job_eq hj]
      rintro r (hr | hr)
      · exact hs r (Or.inl (by rw [hj]; exact List.mem_cons_of_mem j hr))
      · rcases List.mem_append.mp hr with hr | hr
        · exact hs r (Or.inr hr)
        · rcases List.mem_singleton.mp hr with rfl
          simp
  | startErr j rest e hj =>
      rw [process_next_job_err_eq e hj]
      rintro r (hr | hr)
      · exact hs r (Or.inl (by rw [hj]; exact List.mem_cons_of_mem j hr))
      · rcases List.mem_append.mp hr with hr | hr
        · exact hs r (Or.inr hr)
        · rcases List.mem_singleton.mp hr with rfl
          simp
  | submitInput jobId0 v => exact hs
  | cancel jobId0 =>
      rcases cancel_job_cases s jobId0 with ⟨hqs, heq⟩ | ⟨hqs, has, heq⟩ | ⟨hqs, has, heq⟩
      · rw [heq]
        rintro r (hr | hr)
        · exact hs r (Or.inl (List.Sublist.subset (removeFirstJob_sublist s.jobQueue jobId0) hr))
        · exact hs r (Or.inr hr)
      · rw [heq]
        rintro r (hr | hr)
        · exact hs r (Or.inl hr)
        · exact hupd _ jobId0 (fun x => by simp) r hr
      · rw [heq]; exact hs
  | poll jobId0 =>
      rcases poll_snd_cases s jobId0 with h | h <;> rw [h]
      · exact hs
      · exact hs
  | finishOk jobId0 v =>
      rintro r (hr | hr)
      · exact hs r (Or.inl hr)
      · exact hupd _ jobId0 (fun x => by simp) r hr
  | finishErr jobId0 e =>
      rintro r (hr | hr)
      · exact hs r (Or.inl hr)
      · exact hupd _ jobId0 (fun x => by simp) r hr
  | cleanup =>
      rintro r (hr | hr)
      · exact hs r (Or.inl hr)
      · exact hs r (Or.inr (List.mem_of_mem_filter hr))
  | tick d => exact hs

/-- Over any execution of the source starting from a fresh `JobQueue()`,
no job record ever carries the `awaiting_input` status. -/
lemma run_no_awaiting {tr : List Label} {s : JQState} (h : Run initState tr s) :
    ∀ r : JobRec, (r ∈ s.jobQueue ∨ r ∈ s.activeJobs) → r.status ≠ .awaitingInput := by
  have main : ∀ s0 s1 tr1, Run s0 tr1 s1 →
      (∀ r : JobRec, (r ∈ s0.jobQueue ∨ r ∈ s0.activeJobs) → r.status ≠ .awaitingInput) →
      ∀ r : JobRec, (r ∈ s1.jobQueue ∨ r ∈ s1.activeJobs) → r.status ≠ .awaitingInput := by
    intro s0 s1 tr1 hrun
    induction hrun with
    | nil s2 => exact fun h => h
    | cons hstep hrun ih => exact fun h0 => ih (step_no_awaiting hstep h0)
  refine main initState s tr h ?_
  rintro r (hr | hr) <;> simp [initState] at hr

lemma not_mem_ids_of_find_none {l : List JobRec} {jid : String}
    (h : l.find? (fun j => j.jobId == jid) = none) : jid ∉ l.map JobRec.jobId := by
  rw [List.find?_eq_none] at h
  intro hmem
  rcases List.mem_map.mp hmem with ⟨x, hx, hxe⟩
  exact h x hx (by simpa using hxe)

lemma activeIds_updateJob (l : List JobRec) (jid : String) (f : JobRec → JobRec)
    (hf : ∀ x, (f x).jobId = x.jobId) :
    (updateJob l jid f).map JobRec.jobId = l.map JobRec.jobId := by
  unfold updateJob
  rw [List.map_map]
  have : (JobRec.jobId ∘ fun j => if j.jobId == jid then f j else j) = JobRec.jobId := by
    funext x
    by_cases hx : (x.jobId == jid) <;> simp [Function.comp, hx, hf x]
  rw [this]

/-- The freshness of `uuid4` keeps the FIFO's and the in-flight table's job
ids globally duplicate-free. -/
lemma step_ids_nodup {s s' : JQState} {l : Label} (hstep : Step s l s')
    (hnd : (queueIds s ++ activeIds s).Nodup) :
    (queueIds s' ++ activeIds s').Nodup := by
  cases hstep with
  | admitJob jobId0 url clientId hfq hfa =>
      have hq : queueIds (add_scraping_job s jobId0 url clientId)
          = queueIds s ++ [jobId0] := by
        unfold queueIds add_scraping_job
        simp
      have ha : activeIds (add_scraping_job s jobId0 url clientId) = activeIds s := rfl
      rw [hq, ha, List.append_assoc, List.singleton_append, List.nodup_middle]
      refine List.nodup_cons.mpr ⟨?_, hnd⟩
      rw [List.mem_append]
      rintro (hm | hm)
      · exact not_mem_ids_of_find_none (Option.isNone_iff_eq_none.mp hfq) hm
      · exact not_mem_ids_of_find_none (Option.isNone_iff_eq_none.mp hfa) hm
  | start j rest hj =>
      have hq2 : queueIds (process_next_job s) = rest.map JobRec.jobId := by
        rw [process_next_job_eq hj]
        rfl
      have ha2 : activeIds (process_next_job s) = activeIds s ++ [j.jobId] := by
        rw [process_next_job_eq hj]
        unfold activeIds
        simp
      rw [hq2, ha2]
      have hq : queueIds s = j.jobId :: rest.map JobRec.jobId := by
        unfold queueIds
        rw [hj]
        rfl
      rw [hq, List.cons_append, List.nodup_cons] at hnd
      rw [← List.append_assoc, List.nodup_middle]
      refine List.nodup_cons.mpr ?_
      rw [List.append_nil]
      exact hnd
  | startErr j rest e hj =>
      have hq2 : queueIds (process_next_job_err s e) = rest.map JobRec.jobId := by
        rw [process_next_job_err_eq e hj]
        rfl
      have ha2 : activeIds (process_next_job_err s e) = activeIds s ++ [j.jobId] := by
        rw [process_next_job_err_eq e hj]
        unfold activeIds
        simp
      rw [hq2, ha2]
      have hq : queueIds s = j.jobId :: rest.map JobRec.jobId := by
        unfold queueIds
        rw [hj]
        rfl
      rw [hq, List.cons_append, List.nodup_cons] at hnd
      rw [← List.append_assoc, List.nodup_middle]
      refine List.nodup_cons.mpr ?_
      rw [List.append_nil]
      exact hnd
  | submitInput jobId0 v => exact hnd
  | cancel jobId0 =>
      rcases cancel_job_cases s jobId0 with ⟨hqs, heq⟩ | ⟨hqs, has, heq⟩ | ⟨hqs, has, heq⟩
      · rw [heq]
        refine hnd.sublist ?_
        exact List.Sublist.append_right
          (List.Sublist.map JobRec.jobId (removeFirstJob_sublist s.jobQueue jobId0)) _
      · rw [heq]
        show (queueIds s ++ (updateJob s.activeJobs jobId0 (fun j => { j with status := .cancelled })).map JobRec.jobId).Nodup
        rw [activeIds_updateJob s.activeJobs jobId0 (fun j => { j with status := .cancelled }) (fun x => rfl)]
        exact hnd
      · rw [heq]; exact hnd
  | poll jobId0 =>
      rcases poll_snd_cases s jobId0 with h | h <;> rw [h] <;> exact hnd
  | finishOk jobId0 v =>
      show (queueIds s ++ (updateJob s.activeJobs jobId0 (fun j => { j with status := .completed, result := some v, completedAt := some s.now })).map JobRec.jobId).Nodup
      rw [activeIds_updateJob s.activeJobs jobId0 (fun j => { j with status := .completed, result := some v, completedAt := some s.now }) (fun x => rfl)]
      exact hnd
  | finishErr jobId0 e =>
      show (queueIds s ++ (updateJob s.activeJobs jobId0 (fun j => { j with status := .failed, error := some e, completedAt := some s.now })).map JobRec.jobId).Nodup
      rw [activeIds_updateJob s.activeJobs jobId0 (fun j => { j with status := .failed, error := some e, completedAt := some s.now }) (fun x => rfl)]
      exact hnd
  | cleanup =>
      refine hnd.sublist ?_
      refine List.Sublist.append_left ?_ _
      exact List.Sublist.map JobRec.jobId (List.filter_sublist _)
  | tick d => exact hnd

/-- From a fresh `JobQueue()`, job ids in the FIFO and the in-flight table
are pairwise distinct at every reachable state. -/
lemma run_ids_nodup {tr : List Label} {s : JQState} (h : Run initState tr s) :
    (queueIds s ++ activeIds s).Nodup := by
  have main : ∀ s0 s1 tr1, Run s0 tr1 s1 →
      (queueIds s0 ++ activeIds s0).Nodup → (queueIds s1 ++ activeIds s1).Nodup := by
    intro s0 s1 tr1 hrun
    induction hrun with
    | nil s2 => exact fun h => h
    | cons hstep hrun ih => exact fun h0 => ih (step_ids_nodup hstep h0)
  exact main initState s tr h (by simp [initState, queueIds, activeIds])

lemma not_mem_keys_of_find_none {m : List (String × String)} {k : String}
    (h : m.find? (fun p => p.1 == k) = none) : k ∉ m.map Prod.fst := by
  rw [List.find?_eq_none] at h
  intro hmem
  rcases List.mem_map.mp hmem with ⟨x, hx, hxe⟩
  exact h x hx (by simpa using hxe)

lemma keys_alInsert_nodup (m : List (String × String)) (k v : String)
    (h : (m.map Prod.fst).Nodup) : ((alInsert m k v).map Prod.fst).Nodup := by
  unfold alInsert
  by_cases hk : (m.find? (fun p => p.1 == k)).isSome
  · simp only [hk, if_pos]
    rw [List.map_map]
    have : (Prod.fst ∘ fun p : String × String => if p.1 == k then (k, v) else p)
        = Prod.fst := by
      funext p
      by_cases hp : p.1 == k
      · have : p.1 = k := by simpa using hp
        simp [Function.comp, hp, this]
      · simp [Function.comp, hp]
    rw [this]
    exact h
  · simp only [hk, if_neg, Bool.false_eq_true, not_false_iff]
    rw [List.map_append]
    have hnone : m.find? (fun p => p.1 == k) = none := by
      cases hfind : m.find? (fun p => p.1 == k) with
      | none => rfl
      | some q => rw [hfind] at hk; simp at hk
    rw [show ([(k, v)].map Prod.fst) = k :: [] from rfl, List.nodup_middle]
    refine List.nodup_cons.mpr ⟨?_, by simpa using h⟩
    rw [List.append_nil]
    exact not_mem_keys_of_find_none hnone

/-- The human-input buffer's keys stay duplicate-free: an existing key is
overwritten in place, a new key is appended once, and `pop` only removes. -/
lemma step_human_keys_nodup {s s' : JQState} {l : Label} (hstep : Step s l s')
    (h : (s.humanInputQueue.map Prod.fst).Nodup) :
    (s'.humanInputQueue.map Prod.fst).Nodup := by
  cases hstep with
  | admitJob jobId0 url clientId hfq hfa => exact h
  | start j rest hj =>
      rw [process_next_job_eq hj]
      exact h
  | startErr j rest e hj =>
      rw [process_next_job_err_eq e hj]
      exact h
  | submitInput jobId0 v => exact keys_alInsert_nodup _ _ _ h
  | cancel jobId0 =>
      rcases cancel_job_cases s jobId0 with ⟨hqs, heq⟩ | ⟨hqs, has, heq⟩ | ⟨hqs, has, heq⟩ <;>
        rw [heq] <;> exact h
  | poll jobId0 =>
      rcases poll_snd_cases s jobId0 with hp | hp <;> rw [hp]
      · exact h
      · exact h.sublist (List.Sublist.map Prod.fst (List.filter_sublist _))
  | finishOk jobId0 v => exact h
  | finishErr jobId0 e => exact h
  | cleanup => exact h
  | tick d => exact h

/-- From a fresh `JobQueue()`, the `human_input_queue` dict holds at most
one buffered value per job id. -/
lemma run_human_keys_nodup {tr : List Label} {s : JQState} (h : Run initState tr s) :
    (s.humanInputQueue.map Prod.fst).Nodup := by
  have main : ∀ s0 s1 tr1, Run s0 tr1 s1 →
      (s0.humanInputQueue.map Prod.fst).Nodup → (s1.humanInputQueue.map Prod.fst).Nodup := by
    intro s0 s1 tr1 hrun
    induction hrun with
    | nil s2 => exact fun h => h
    | cons hstep hrun ih => exact fun h0 => ih (step_human_keys_nodup hstep h0)
  exact main initState s tr h (by simp [initState])

/-- A job id absent from the FIFO and never re-admitted is never started:
the consumer loop starts jobs only by popping them off the FIFO. -/
lemma run_no_start (jid : String) :
    ∀ {s : JQState} {tr : List Label} {s' : JQState}, Run s tr s' →
      s.jobQueue.find? (fun j => j.jobId == jid) = none →
      (∀ url clientId, Label.admitJob jid url clientId ∉ tr) →
      Label.start jid ∉ tr := by
  intro s tr s' h
  induction h with
  | nil s1 =>
      intro _ _
      simp
  | @cons s1 s2 s3 l tr1 hstep hrun ih =>
      intro hq hadm hmem
      rcases List.mem_cons.mp hmem with heq | hmem'
      · rw [← heq] at hstep
        cases hstep with
        | start j rest hj =>
            rw [hj, List.find?_eq_none] at hq
            exact hq j (List.mem_cons_self j rest) (by simp)
      · have hadml : ∀ url clientId, l ≠ .admitJob jid url clientId := by
          intro url clientId hl
          exact hadm url clientId (by rw [hl]; exact List.mem_cons_self _ _)
        have hadmtr : ∀ url clientId, Label.admitJob jid url clientId ∉ tr1 := by
          intro url clientId hm
          exact hadm url clientId (List.mem_cons_of_mem _ hm)
        exact ih (step_queue_none hstep hq hadml) hadmtr hmem'

lemma removeFirst_find_none {l : List JobRec} {jid : String}
    (hnd : (l.map JobRec.jobId).Nodup) :
    (removeFirstJob l jid).find? (fun j => j.jobId == jid) = none := by
  induction l with
  | nil => rfl
  | cons x xs ih =>
      rw [List.map_cons, List.nodup_cons] at hnd
      unfold removeFirstJob
      by_cases hx : (x.jobId == jid)
      · rw [if_pos hx]
        rw [List.find?_eq_none]
        intro y hy hpy
        have hxj : x.jobId = jid := by simpa using hx
        have hyj : y.jobId = jid := by simpa using hpy
        exact hnd.1 (hxj ▸ hyj ▸ List.mem_map_of_mem JobRec.jobId hy)
      · have hxf : (x.jobId == jid) = false := by simpa using hx
        rw [if_neg hx, List.find?_cons, hxf]
        exact ih hnd.2

/-- An id absent from both tables, and never re-admitted, stays absent for
the rest of the execution. -/
lemma run_absent (jid : String) :
    ∀ {s : JQState} {tr : List Label} {s' : JQState}, Run s tr s' →
      lookupJob s.activeJobs jid = none →
      s.jobQueue.find? (fun j => j.jobId == jid) = none →
      (∀ url clientId, Label.admitJob jid url clientId ∉ tr) →
      lookupJob s'.activeJobs jid = none ∧
        s'.jobQueue.find? (fun j => j.jobId == jid) = none := by
  intro s tr s' h
  induction h with
  | nil s1 => exact fun ha hq _ => ⟨ha, hq⟩
  | @cons s1 s2 s3 l tr1 hstep hrun ih =>
      intro ha hq hadm
      have hadml : ∀ url clientId, l ≠ .admitJob jid url clientId := by
        intro url clientId hl
        exact hadm url clientId (by rw [hl]; exact List.mem_cons_self _ _)
      have hadmtr : ∀ url clientId, Label.admitJob jid url clientId ∉ tr1 := by
        intro url clientId hm
        exact hadm url clientId (List.mem_cons_of_mem _ hm)
      exact ih (step_active_none hstep ha hq) (step_queue_none hstep hq hadml) hadmtr

lemma shouldEvict_iff (now : Nat) (r : JobRec) :
    shouldEvict now r = true ↔
      (r.status.isTerminal = true ∧ ∃ t, r.completedAt = some t ∧ now - t > 3600) := by
  unfold shouldEvict
  cases hc : r.completedAt with
  | none => simp
  | some t => simp [Nat.lt_iff_add_one_le]

/-- A record that never receives a `completed_at` timestamp survives every
step (the eviction test requires one), with its `completed_at` still
unset. -/
lemma run_completedAt_none (jid : String) :
    ∀ {s : JQState} {tr : List Label} {s' : JQState}, Run s tr s' →
      (queueIds s ++ activeIds s).Nodup →
      (∀ v, Label.finishOk jid v ∉ tr) →
      (∀ e, Label.finishErr jid e ∉ tr) →
      ∀ {r : JobRec}, lookupJob s.activeJobs jid = some r → r.completedAt = none →
      ∃ r', lookupJob s'.activeJobs jid = some r' ∧ r'.completedAt = none := by
  intro s tr s' h
  induction h with
  | nil s1 => exact fun _ _ _ _ hr hc => ⟨_, hr, hc⟩
  | @cons s1 s2 s3 l tr1 hstep hrun ih =>
      intro hnd hok herr r hr hc
      have hndA : (s1.activeJobs.map JobRec.jobId).Nodup := by
        have := hnd.of_append_right
        exact this
      have hoktr : ∀ v, Label.finishOk jid v ∉ tr1 := fun v hm =>
        hok v (List.mem_cons_of_mem _ hm)
      have herrtr : ∀ e, Label.finishErr jid e ∉ tr1 := fun e hm =>
        herr e (List.mem_cons_of_mem _ hm)
      have hnd2 := step_ids_nodup hstep hnd
      rcases step_lookup_active hstep hr hndA with hkeep | ⟨hl, hkeep⟩ | ⟨v, hl, _⟩ | ⟨e, hl, _⟩ | ⟨_, he, _⟩
      · exact ih hnd2 hoktr herrtr hkeep hc
      · exact ih hnd2 hoktr herrtr hkeep (by simpa using hc)
      · exact absurd (by rw [hl]; exact List.mem_cons_self _ _) (fun hm => hok v hm)
      · exact absurd (by rw [hl]; exact List.mem_cons_self _ _) (fun hm => herr e hm)
      · rw [shouldEvict_iff] at he
        rcases he.2 with ⟨t, hct, _⟩
        rw [hc] at hct
        cases hct

lemma disconnect_find_none (st : WSState) (cid : String) :
    (disconnect st cid).activeConnections.find? (fun p => p.1 == cid) = none := by
  unfold disconnect
  rw [List.find?_eq_none]
  intro x hx hpx
  have hne := List.of_mem_filter hx
  simp [bne] at hne
  exact hne (by simpa using hpx)

/-- `send_json_message` on a live channel appends the event to that
channel and touches nothing else about the client's entry key. -/
lemma send_json_message_live {st : WSState} {data : WsEvent} {cid k : String}
    {ch : Channel}
    (hfind : st.activeConnections.find? (fun p => p.1 == cid) = some (k, ch))
    (halive : ch.alive = true) :
    (send_json_message st data cid).activeConnections.find? (fun p => p.1 == cid)
      = some (k, { ch with sent := ch.sent ++ [data] }) := by
  unfold send_json_message
  rw [hfind]
  simp only [halive, if_pos]
  rw [List.find?_map]
  have hcomp : ((fun p : String × Channel => p.1 == cid) ∘
      fun p => if p.1 == cid then (p.1, { p.2 with sent := p.2.sent ++ [data] }) else p)
      = fun p : String × Channel => p.1 == cid := by
    funext p
    by_cases hp : p.1 == cid <;> simp [Function.comp, hp]
  rw [hcomp, hfind]
  have hk : (k == cid) = true := by simpa using List.find?_some hfind
  simp [hk, halive]
  intro hcon
  exact absurd (by simpa using hk) hcon

lemma get_job_status_of_active {s : JQState} {jid : String} {r : JobRec}
    (h : lookupJob s.activeJobs jid = some r) : get_job_status s jid = some r := by
  unfold get_job_status
  rw [h]

lemma get_job_status_eq_none {s : JQState} {jid : String}
    (ha : lookupJob s.activeJobs jid = none)
    (hq : s.jobQueue.find? (fun j => j.jobId == jid) = none) :
    get_job_status s jid = none := by
  unfold get_job_status
  rw [ha]
  exact hq

lemma human_input_poll_delivered {s : JQState} {jid v : String}
    (h : alLookup s.humanInputQueue jid = some v) :
    human_input_poll s jid
      = (PollResult.delivered v, { s with humanInputQueue := alErase s.humanInputQueue jid }) := by
  unfold human_input_poll
  rw [h]

/-! ### The claims -/

/-- C1, counterexample: the spec's `SubmitHumanInput` contract rejects an
unknown job with `NoSuchJob` and a known-but-not-suspended job with
`NotAwaitingInput`; the source's `submit_human_input`, evaluated at those
very inputs, succeeds both times and buffers the value. -/
theorem C1_counterexample :
    submitHumanInputSpecModel initState "ghost" "42" = Except.error SubmitError.noSuchJob ∧
    alLookup (submit_human_input initState "ghost" "42").humanInputQueue "ghost" = some "42" ∧
    submitHumanInputSpecModel exRunningJQ "j-run" "42"
      = Except.error SubmitError.notAwaitingInput ∧
    alLookup (submit_human_input exRunningJQ "j-run" "42").humanInputQueue "j-run"
      = some "42" := by
  refine ⟨rfl, ?_, rfl, ?_⟩ <;> rfl

/-- C1, amended: `submit_human_input(job_id, value)` never fails and checks
nothing: it stores `value` in the human-input buffer under `job_id`
(overwriting any previous value) whether or not the job exists or is
suspended, and it leaves every job record — status, queue, timestamps —
untouched. -/
theorem C1_submit_human_input_unconditional (s : JQState) (jid v : String) :
    (submit_human_input s jid v).jobQueue = s.jobQueue ∧
    (submit_human_input s jid v).activeJobs = s.activeJobs ∧
    (submit_human_input s jid v).now = s.now ∧
    alLookup (submit_human_input s jid v).humanInputQueue jid = some v :=
  ⟨rfl, rfl, rfl, alLookup_alInsert_self s.humanInputQueue jid v⟩

/-- C2, counterexample: `cancel_job` on a job that is already terminal
(`completed`, still within its retention window) returns `True`, where the
claim requires `False` for an already-terminal job. -/
theorem C2_counterexample :
    lookupJob exCompletedState.activeJobs "j-done" = some exCompletedJob ∧
    exCompletedJob.status.isTerminal = true ∧
    (cancel_job exCompletedState "j-done").1 = true := by
  refine ⟨?_, rfl, ?_⟩ <;> rfl

/-- C2, amended: `cancel_job(job_id)` returns `False` exactly when
`job_id` is neither in the FIFO nor in the in-flight table; it returns
`True` for any queued job and for any in-flight job — terminal ones
included, whose status it silently overwrites with `cancelled`. -/
theorem C2_cancel_returns_true_iff_known (s : JQState) (jid : String) :
    (cancel_job s jid).1
      = ((s.jobQueue.find? (fun j => j.jobId == jid)).isSome
          || (lookupJob s.activeJobs jid).isSome) := by
  rcases cancel_job_cases s jid with ⟨hq, heq⟩ | ⟨hq, ha, heq⟩ | ⟨hq, ha, heq⟩
  · rw [heq]
    simp [hq]
  · rw [heq]
    simp [hq, ha]
  · rw [heq]
    simp [hq, ha]

/-- C3, counterexample: a running job requests human input; the await
primitive (notification via `send_progress_update`, then the callback's
wait) leaves the job-queue state — in particular the job's status —
completely unchanged: the status stays `running` and is never
`awaiting_input`, where the claim requires it to become `awaiting_input`
before suspending. -/
theorem C3_counterexample :
    exRunningJob.status = Status.running ∧
    (request_human_input_notify exSys "client-1" "j-run" "solve captcha" "text").jq
      = exSys.jq ∧
    lookupJob (request_human_input_notify exSys "client-1" "j-run" "solve captcha" "text").jq.activeJobs
        "j-run" = some exRunningJob ∧
    Status.running ≠ Status.awaitingInput := by
  refine ⟨rfl, rfl, ?_, by decide⟩
  rfl

/-- C3, amended: when a running task requests human input, the primitive
sends a notification carrying the prompt and input kind (an
`agent_progress` event with `requires_human_input` set) to the owning
client's channel before suspending, and on delivery removes the buffered
value and hands it to the task; but it never touches the job's status:
no scheduler step ever writes `awaiting_input`, so the job simply stays
`running` throughout the wait and after delivery. -/
theorem C3_hitl_notifies_but_never_marks_awaiting
    (sys : SysState) (cid jid prompt itype k v : String) (ch : Channel) (s : JQState)
    (tr : List Label) (sr : JQState)
    (hfind : sys.ws.activeConnections.find? (fun p => p.1 == cid) = some (k, ch))
    (halive : ch.alive = true)
    (hv : alLookup s.humanInputQueue jid = some v)
    (hrun : Run initState tr sr) :
    ((request_human_input_notify sys cid jid prompt itype).jq = sys.jq ∧
      (request_human_input_notify sys cid jid prompt itype).ws.activeConnections.find?
          (fun p => p.1 == cid)
        = some (k, { ch with sent := ch.sent
            ++ [human_input_required_event jid prompt itype] })) ∧
    ((human_input_poll s jid).1 = PollResult.delivered v ∧
      (human_input_poll s jid).2.activeJobs = s.activeJobs) ∧
    (∀ r : JobRec, (r ∈ sr.jobQueue ∨ r ∈ sr.activeJobs) →
      r.status ≠ Status.awaitingInput) := by
  refine ⟨⟨rfl, send_json_message_live hfind halive⟩, ⟨?_, ?_⟩, run_no_awaiting hrun⟩
  · rw [human_input_poll_delivered hv]
  · rw [human_input_poll_delivered hv]

/-- C3 witness: the amended statement evaluated on the concrete running
job, live client and buffered input. -/
theorem C3_witness :
    ((request_human_input_notify exSys "client-1" "j-run" "p" "text").jq = exSys.jq ∧
      (request_human_input_notify exSys "client-1" "j-run" "p" "text").ws.activeConnections.find?
          (fun p => p.1 == "client-1")
        = some ("client-1", { alive := true, sent := [human_input_required_event "j-run" "p" "text"] })) ∧
    ((human_input_poll exBufState "j-run").1 = PollResult.delivered "alpha" ∧
      (human_input_poll exBufState "j-run").2.activeJobs = exBufState.activeJobs) ∧
    (∀ r : JobRec, (r ∈ initState.jobQueue ∨ r ∈ initState.activeJobs) →
      r.status ≠ Status.awaitingInput) :=
  C3_hitl_notifies_but_never_marks_awaiting exSys "client-1" "j-run" "p" "text"
    "client-1" "alpha" { alive := true, sent := [] } exBufState [] initState
    rfl rfl rfl (Run.nil initState)

/-- C4, counterexample: a legal scheduler step — `cancel_job` on a job
whose status is already terminal (`completed`) — changes the status to
`cancelled`, so a terminal status is not stable and the claimed state
machine is violated. -/
theorem C4_counterexample :
    exCompletedJob.status = Status.completed ∧
    Status.completed.isTerminal = true ∧
    Step exCompletedState (Label.cancel "j-done") (cancel_job exCompletedState "j-done").2 ∧
    lookupJob (cancel_job exCompletedState "j-done").2.activeJobs "j-done"
      = some { exCompletedJob with status := Status.cancelled } ∧
    Status.cancelled ≠ Status.completed := by
  refine ⟨rfl, rfl, Step.cancel exCompletedState "j-done", ?_, by decide⟩
  rfl

/-- C4, amended: statuses of in-flight jobs change only through
`queued → running/failed` at start, and afterwards: once a job's status is
terminal, the only steps that change it are `cancel_job` (which overwrites
any status, terminal included, with `cancelled`) and the job's own
`_run_job` epilogue (which overwrites a `cancelled` set while the task was
still running with `completed` or `failed`).  Every other step preserves a
terminal status. -/
theorem C4_terminal_status_stability
    (s s' : JQState) (l : Label) (jid : String) (r r' : JobRec)
    (hstep : Step s l s')
    (hnd : (s.activeJobs.map JobRec.jobId).Nodup)
    (hr : lookupJob s.activeJobs jid = some r)
    (_hterm : r.status.isTerminal = true)
    (hr' : lookupJob s'.activeJobs jid = some r') :
    r'.status = r.status ∨
    (l = Label.cancel jid ∧ r'.status = Status.cancelled) ∨
    (∃ v, l = Label.finishOk jid v ∧ r'.status = Status.completed) ∨
    (∃ e, l = Label.finishErr jid e ∧ r'.status = Status.failed) := by
  rcases step_lookup_active hstep hr hnd with h | ⟨hl, h⟩ | ⟨v, hl, h⟩ | ⟨e, hl, h⟩ | ⟨_, _, h⟩
  · left
    rw [h] at hr'
    cases hr'
    rfl
  · right; left
    refine ⟨hl, ?_⟩
    rw [h] at hr'
    cases hr'
    rfl
  · right; right; left
    refine ⟨v, hl, ?_⟩
    rw [h] at hr'
    cases hr'
    rfl
  · right; right; right
    refine ⟨e, hl, ?_⟩
    rw [h] at hr'
    cases hr'
    rfl
  · rw [h] at hr'
    cases hr'

/-- C4 witness: the amended statement evaluated on the cancel-after-completed
step. -/
theorem C4_witness :
    ({ exCompletedJob with status := Status.cancelled } : JobRec).status
        = exCompletedJob.status ∨
    (Label.cancel "j-done" = Label.cancel "j-done" ∧
      ({ exCompletedJob with status := Status.cancelled } : JobRec).status
        = Status.cancelled) ∨
    (∃ v, Label.cancel "j-done" = Label.finishOk "j-done" v ∧
      ({ exCompletedJob with status := Status.cancelled } : JobRec).status
        = Status.completed) ∨
    (∃ e, Label.cancel "j-done" = Label.finishErr "j-done" e ∧
      ({ exCompletedJob with status := Status.cancelled } : JobRec).status
        = Status.failed) :=
  C4_terminal_status_stability exCompletedState (cancel_job exCompletedState "j-done").2
    (Label.cancel "j-done") "j-done" exCompletedJob
    { exCompletedJob with status := Status.cancelled }
    (Step.cancel exCompletedState "j-done") (by decide) rfl rfl rfl

/-- C5: over any execution from a fresh `JobQueue()`, the sequence of
job ids the consumer loop starts is a subsequence of the sequence of job
ids admitted — jobs start in admission order, with no reordering (the
source's loop pops only the FIFO head, so this holds for its single-start
policy, the code's counterpart of concurrency = 1). -/
theorem C5_fifo_start_order (tr : List Label) (s : JQState)
    (h : Run initState tr s) :
    List.Sublist (startedIds tr) (admittedIds tr) := by
  have hinv := run_started_sublist h
  have hinit : queueIds initState = [] := rfl
  rw [hinit, List.nil_append] at hinv
  exact (List.sublist_append_left (startedIds tr) (queueIds s)).trans hinv

/-- C5 witness: admit `a` then `b`, start twice; the started order
`[a, b]` is a subsequence of the admitted order `[a, b]`. -/
theorem C5_witness : List.Sublist (startedIds exTr) (admittedIds exTr) :=
  C5_fifo_start_order exTr exS4
    (Run.cons (Step.admitJob initState "a" "u" "c" rfl rfl)
      (Run.cons (Step.admitJob exS1 "b" "u" "c" rfl rfl)
        (Run.cons (Step.start exS2 exJobA [exJobB] rfl)
          (Run.cons (Step.start exS3 exJobB [] rfl)
            (Run.nil exS4)))))

/-- C6, counterexample: cancelling a still-queued job removes it and
returns `True`, but its record is dropped wholesale rather than marked
`cancelled`: afterwards `get_job_status` knows nothing of the job, so no
record with status `cancelled` exists for it — where the claim requires
the record to be marked `cancelled`. -/
theorem C6_counterexample :
    (cancel_job exQueuedState "j-q").1 = true ∧
    (cancel_job exQueuedState "j-q").2.jobQueue = [] ∧
    get_job_status (cancel_job exQueuedState "j-q").2 "j-q" = none := by
  refine ⟨?_, ?_, ?_⟩ <;> rfl

/-- C6, amended: for a job still in the FIFO, `cancel_job` deletes its
queue entry and returns `True`, the in-flight table is untouched, and the
job can never be started afterwards (no `start` of that id occurs in any
later execution that does not re-admit the id) — but the record is not
marked `cancelled`: it is gone, and `get_job_status` returns `None` for
it. -/
theorem C6_cancel_queued_never_starts
    (s : JQState) (jid : String) (tr : List Label) (s' : JQState)
    (hq : (s.jobQueue.find? (fun j => j.jobId == jid)).isSome = true)
    (ha : lookupJob s.activeJobs jid = none)
    (hnd : (s.jobQueue.map JobRec.jobId).Nodup)
    (hrun : Run (cancel_job s jid).2 tr s')
    (hadm : ∀ url clientId, Label.admitJob jid url clientId ∉ tr) :
    (cancel_job s jid).1 = true ∧
    (cancel_job s jid).2.jobQueue = removeFirstJob s.jobQueue jid ∧
    (cancel_job s jid).2.activeJobs = s.activeJobs ∧
    get_job_status (cancel_job s jid).2 jid = none ∧
    Label.start jid ∉ tr := by
  rcases cancel_job_cases s jid with ⟨hq1, heq⟩ | ⟨hq1, ha1, heq⟩ | ⟨hq1, ha1, heq⟩
  · have hq2 : (cancel_job s jid).2.jobQueue.find? (fun j => j.jobId == jid) = none := by
      rw [heq]
      exact removeFirst_find_none hnd
    refine ⟨by rw [heq], by rw [heq], by rw [heq], ?_, ?_⟩
    · refine get_job_status_eq_none ?_ hq2
      rw [heq]
      exact ha
    · exact run_no_start jid hrun hq2 hadm
  · rw [hq1] at hq
    cases hq
  · rw [hq1] at hq
    cases hq

/-- C6 witness: the amended statement on the one-queued-job state, with a
subsequent cleanup sweep as the later execution. -/
theorem C6_witness :
    (cancel_job exQueuedState "j-q").1 = true ∧
    (cancel_job exQueuedState "j-q").2.jobQueue = removeFirstJob exQueuedState.jobQueue "j-q" ∧
    (cancel_job exQueuedState "j-q").2.activeJobs = exQueuedState.activeJobs ∧
    get_job_status (cancel_job exQueuedState "j-q").2 "j-q" = none ∧
    Label.start "j-q" ∉ [Label.cleanup] :=
  C6_cancel_queued_never_starts exQueuedState "j-q" [Label.cleanup]
    (cleanup_completed_jobs (cancel_job exQueuedState "j-q").2)
    rfl rfl (by decide)
    (Run.cons (Step.cleanup (cancel_job exQueuedState "j-q").2)
      (Run.nil (cleanup_completed_jobs (cancel_job exQueuedState "j-q").2)))
    (by intro url clientId hm; simp at hm)

/-- C7: (i) an in-flight record with a terminal status and a
`completed_at` timestamp survives any single step taken while the
retention window (3600 s past `completed_at`) has not yet elapsed, and
`get_job_status` still returns a record for it; (ii) a record whose status
is not terminal survives every step — it is never evicted; (iii) once a
job id is absent from both tables (evicted), every later execution that
does not re-admit the id keeps `get_job_status` answering `None`. -/
theorem C7_retention_window_and_eviction
    (s s' : JQState) (l : Label) (jid : String) (r : JobRec) (t : Nat)
    (hstep : Step s l s')
    (hnd : (s.activeJobs.map JobRec.jobId).Nodup)
    (hr : lookupJob s.activeJobs jid = some r) :
    (r.status.isTerminal = true → r.completedAt = some t → s'.now ≤ t + 3600 →
      ∃ r', get_job_status s' jid = some r') ∧
    (r.status.isTerminal = false → ∃ r', get_job_status s' jid = some r') ∧
    (∀ (s₀ : JQState) (tr : List Label) (s₁ : JQState), Run s₀ tr s₁ →
      lookupJob s₀.activeJobs jid = none →
      s₀.jobQueue.find? (fun j => j.jobId == jid) = none →
      (∀ url clientId, Label.admitJob jid url clientId ∉ tr) →
      get_job_status s₁ jid = none) := by
  refine ⟨?_, ?_, ?_⟩
  · intro hterm hct hle
    rcases step_lookup_active hstep hr hnd with h | ⟨hl, h⟩ | ⟨v, hl, h⟩ | ⟨e, hl, h⟩ | ⟨hl, he, h⟩
    · exact ⟨r, get_job_status_of_active h⟩
    · exact ⟨_, get_job_status_of_active h⟩
    · exact ⟨_, get_job_status_of_active h⟩
    · exact ⟨_, get_job_status_of_active h⟩
    · subst hl
      cases hstep
      exfalso
      rw [shouldEvict_iff] at he
      rcases he with ⟨_, t', hct', hgt⟩
      rw [hct] at hct'
      injection hct' with ht
      subst ht
      have hle' : s.now ≤ t + 3600 := hle
      omega
  · intro hterm
    rcases step_lookup_active hstep hr hnd with h | ⟨hl, h⟩ | ⟨v, hl, h⟩ | ⟨e, hl, h⟩ | ⟨hl, he, h⟩
    · exact ⟨r, get_job_status_of_active h⟩
    · exact ⟨_, get_job_status_of_active h⟩
    · exact ⟨_, get_job_status_of_active h⟩
    · exact ⟨_, get_job_status_of_active h⟩
    · exfalso
      rw [shouldEvict_iff] at he
      rw [he.1] at hterm
      cases hterm
  · intro s₀ tr s₁ hrun ha hq hadm
    obtain ⟨ha', hq'⟩ := run_absent jid hrun ha hq hadm
    exact get_job_status_eq_none ha' hq'

/-- C7 witness: the completed job (finished at 10 s, clock at 20 s) is
still queryable after a cleanup sweep inside the window, and an id absent
from a fresh queue stays unknown. -/
theorem C7_witness :
    (∃ r', get_job_status (cleanup_completed_jobs exCompletedState) "j-done" = some r') ∧
    get_job_status initState "j-done" = none :=
  ⟨(C7_retention_window_and_eviction exCompletedState
      (cleanup_completed_jobs exCompletedState) Label.cleanup "j-done" exCompletedJob 10
      (Step.cleanup exCompletedState) (by decide) rfl).1 rfl rfl (by decide),
   (C7_retention_window_and_eviction exCompletedState
      (cleanup_completed_jobs exCompletedState) Label.cleanup "j-done" exCompletedJob 10
      (Step.cleanup exCompletedState) (by decide) rfl).2.2 initState [] initState
      (Run.nil initState) rfl rfl (by intro u c hm; simp at hm)⟩

/-- C8: `send_json_message` to a client with no registered channel is a
no-op; when the channel write raises (dead channel), the exception is
swallowed (the embedding is the total function below — no error escapes)
and the client's entry is removed from the connection table, exactly
`disconnect`'s cleanup. -/
theorem C8_send_unknown_noop_dead_disconnects
    (st : WSState) (data : WsEvent) (cid k : String) (ch : Channel) :
    (st.activeConnections.find? (fun p => p.1 == cid) = none →
      send_json_message st data cid = st) ∧
    (st.activeConnections.find? (fun p => p.1 == cid) = some (k, ch) →
      ch.alive = false →
      send_json_message st data cid = disconnect st cid ∧
      (send_json_message st data cid).activeConnections.find?
        (fun p => p.1 == cid) = none) := by
  constructor
  · intro h
    unfold send_json_message
    rw [h]
  · intro hfind hdead
    have heq : send_json_message st data cid = disconnect st cid := by
      unfold send_json_message
      rw [hfind]
      simp [hdead]
    refine ⟨heq, ?_⟩
    rw [heq]
    exact disconnect_find_none st cid

/-- C8 witness: sending to an unregistered client changes nothing; sending
to the dead channel removes it. -/
theorem C8_witness :
    send_json_message exDeadWS exEvent "nobody" = exDeadWS ∧
    send_json_message exDeadWS exEvent "client-2" = disconnect exDeadWS "client-2" ∧
    (send_json_message exDeadWS exEvent "client-2").activeConnections.find?
      (fun p => p.1 == "client-2") = none :=
  ⟨(C8_send_unknown_noop_dead_disconnects exDeadWS exEvent "nobody" "client-2"
      { alive := false, sent := [] }).1 rfl,
   ((C8_send_unknown_noop_dead_disconnects exDeadWS exEvent "client-2" "client-2"
      { alive := false, sent := [] }).2 rfl rfl).1,
   ((C8_send_unknown_noop_dead_disconnects exDeadWS exEvent "client-2" "client-2"
      { alive := false, sent := [] }).2 rfl rfl).2⟩

/-- C9: the human-input buffer is a single slot per job id — reachable
buffers never hold two entries for one id; a second submission before
pickup overwrites the first (the earlier value is lost, not queued); and
the waiting callback's pickup removes the entry, so a buffered value is
delivered at most once (the slot is empty right after delivery). -/
theorem C9_single_slot_buffer
    (tr : List Label) (sr s : JQState) (jid v v' : String)
    (hrun : Run initState tr sr)
    (hv : alLookup s.humanInputQueue jid = some v) :
    (sr.humanInputQueue.map Prod.fst).Nodup ∧
    alLookup (submit_human_input (submit_human_input s jid v) jid v').humanInputQueue jid
      = some v' ∧
    human_input_poll s jid
      = (PollResult.delivered v,
         { s with humanInputQueue := alErase s.humanInputQueue jid }) ∧
    alLookup (human_input_poll s jid).2.humanInputQueue jid = none := by
  refine ⟨run_human_keys_nodup hrun, ?_, human_input_poll_delivered hv, ?_⟩
  · exact alLookup_alInsert_self _ jid v'
  · rw [human_input_poll_delivered hv]
    exact alLookup_alErase_self s.humanInputQueue jid

/-- C9 witness: the statement on the concrete buffered state. -/
theorem C9_witness :
    ((initState.humanInputQueue.map Prod.fst).Nodup ∧
      alLookup (submit_human_input (submit_human_input exBufState "j-run" "alpha") "j-run" "beta").humanInputQueue "j-run"
        = some "beta" ∧
      human_input_poll exBufState "j-run"
        = (PollResult.delivered "alpha",
           { exBufState with humanInputQueue := alErase exBufState.humanInputQueue "j-run" }) ∧
      alLookup (human_input_poll exBufState "j-run").2.humanInputQueue "j-run" = none) :=
  C9_single_slot_buffer [] initState exBufState "j-run" "alpha" "beta"
    (Run.nil initState) rfl

/-- C10: a cleanup sweep keeps an in-flight record exactly unless it is
terminal AND carries a `completed_at` older than the 3600 s window — so
eviction requires both; consequently a record that never receives a
`completed_at` (e.g. one set to `cancelled` by `cancel_job`, which records
no timestamp) survives every later step that is not its own `_run_job`
epilogue, still with no `completed_at`, and stays queryable via
`get_job_status` indefinitely. -/
theorem C10_eviction_requires_completed_at
    (s s' s₂ : JQState) (r r0 : JobRec) (jid : String) (tr : List Label)
    (hmem : r ∈ s₂.activeJobs)
    (hrun : Run s tr s')
    (hnd : (queueIds s ++ activeIds s).Nodup)
    (hok : ∀ v, Label.finishOk jid v ∉ tr)
    (herr : ∀ e, Label.finishErr jid e ∉ tr)
    (hr : lookupJob s.activeJobs jid = some r0)
    (hc : r0.completedAt = none) :
    (r ∈ (cleanup_completed_jobs s₂).activeJobs ↔
      ¬(r.status.isTerminal = true ∧ ∃ t, r.completedAt = some t ∧ s₂.now - t > 3600)) ∧
    (∃ r', lookupJob s'.activeJobs jid = some r' ∧ r'.completedAt = none ∧
      get_job_status s' jid = some r') := by
  constructor
  · show r ∈ s₂.activeJobs.filter (fun j => !(shouldEvict s₂.now j)) ↔ _
    rw [List.mem_filter]
    constructor
    · intro ⟨_, hp⟩
      rw [← shouldEvict_iff]
      simpa using hp
    · intro hne
      refine ⟨hmem, ?_⟩
      rw [← shouldEvict_iff] at hne
      simpa using hne
  · obtain ⟨r', hl, hcn⟩ := run_completedAt_none jid hrun hnd hok herr hr hc
    exact ⟨r', hl, hcn, get_job_status_of_active hl⟩

/-- C10 witness: the cancelled-without-timestamp job survives a sweep, a
jump of 999999 s, and another sweep, still queryable. -/
theorem C10_witness :
    (exCancelledJob ∈ (cleanup_completed_jobs exCancelledState).activeJobs ↔
      ¬(exCancelledJob.status.isTerminal = true ∧
        ∃ t, exCancelledJob.completedAt = some t ∧ exCancelledState.now - t > 3600)) ∧
    (∃ r', lookupJob exC10c.activeJobs "j-c" = some r' ∧ r'.completedAt = none ∧
      get_job_status exC10c "j-c" = some r') :=
  C10_eviction_requires_completed_at exCancelledState exC10c exCancelledState
    exCancelledJob exCancelledJob "j-c" [Label.cleanup, Label.tick 999999, Label.cleanup]
    (by decide)
    (Run.cons (Step.cleanup exCancelledState)
      (Run.cons (Step.tick exC10a 999999)
        (Run.cons (Step.cleanup exC10b) (Run.nil exC10c))))
    (by decide)
    (by intro v hm; simp at hm)
    (by intro e hm; simp at hm)
    rfl rfl
